import Mathlib

/-!
Verification development for the excel-vtex-service repository.

The definitions below are shallow embeddings of the JavaScript sources:
* src/src/services/processStatus.js   (ProcessStatusService: execution coordinator)
* src/src/services/scheduledService.js (executeScheduledTask start guard)
* the force-update route (manual start guard)
* src/src/services/excelService.js    (detectFileType, transformations, output names)
* the GCP download module (getLatestExcelNameAndDownload selection logic)

Machine timestamps are modelled as integer milliseconds; the source stores a
start instant as an ISO string and re-parses it on completion, which recovers
the same instant, so both are the integer startedAt here.
-/

namespace ExcelVtex

/-! ## Coordinator data model (src/src/services/processStatus.js) -/

/-- An error value as thrown in the service (only the fields the coordinator
reads in serializeError). Every field is optional, as in JavaScript. -/
structure JsError where
  message : Option String
  errType : Option String
  code : Option String
  statusCode : Option Nat
  stack : Option String
  details : Option String
deriving Repr, DecidableEq

/-- The shape produced by ProcessStatusService.serializeError. -/
structure SerializedError where
  message : String
  errType : String
  code : Option String
  statusCode : Option Nat
  stack : Option String
  details : Option String
deriving Repr, DecidableEq

/-- serializeError: fills in defaults for missing fields (processStatus.js). -/
def serializeError (e : JsError) : SerializedError :=
  { message := e.message.getD "Error desconocido"
    errType := e.errType.getD "UNKNOWN_ERROR"
    code := e.code
    statusCode := e.statusCode
    stack := e.stack
    details := e.details }

/-- One ProcessExecution record, as created by startProcess. Statuses are the
literal strings used by the source. -/
structure Execution where
  id : Nat
  trigger : String
  startedAt : Int
  endedAt : Option Int
  status : String
  recordsProcessed : Nat
  error : Option SerializedError
  vtexResponse : Option String
  duration : Option Int
deriving Repr, DecidableEq

/-- currentStatus of the ProcessStatusService singleton. -/
structure CoordState where
  isRunning : Bool
  lastExecution : Option Execution
  executionHistory : List Execution
deriving Repr, DecidableEq

/-- The constructor state of ProcessStatusService. -/
def initState : CoordState :=
  { isRunning := false, lastExecution := none, executionHistory := [] }

/-- this.maxHistorySize = 50. -/
def maxHistorySize : Nat := 50

/-- addToHistory: push a copy, then shift once when the bound is exceeded. -/
def addToHistory (ex : Execution) (h : List Execution) : List Execution :=
  let h2 := h ++ [ex]
  if maxHistorySize < h2.length then h2.drop 1 else h2

/-- startProcess(trigger): create a running execution and set the flag. The
generated id and the clock reading are passed in as parameters. -/
def startProcess (trigger : String) (id : Nat) (now : Int) (s : CoordState) :
    Nat × CoordState :=
  let ex : Execution :=
    { id := id, trigger := trigger, startedAt := now, endedAt := none
      status := "running", recordsProcessed := 0, error := none
      vtexResponse := none, duration := none }
  (id, { s with isRunning := true, lastExecution := some ex })

/-- The in-place field updates completeProcess performs on the active
execution object. -/
def finishedExecution (recordsProcessed : Nat) (error : Option JsError)
    (vtexResponse : Option String) (now : Int) (ex : Execution) : Execution :=
  { ex with
    endedAt := some now
    status := if error.isSome then "failed" else "completed"
    recordsProcessed := recordsProcessed
    error := error.map serializeError
    vtexResponse := vtexResponse
    duration := some (now - ex.startedAt) }

/-- completeProcess(recordsProcessed, error, vtexResponse): no-op when there is
no lastExecution; otherwise stamp the terminal fields, clear the flag and
append to the history. -/
def completeProcess (recordsProcessed : Nat) (error : Option JsError)
    (vtexResponse : Option String) (now : Int) (s : CoordState) : CoordState :=
  match s.lastExecution with
  | none => s
  | some ex =>
    { isRunning := false
      lastExecution := some (finishedExecution recordsProcessed error vtexResponse now ex)
      executionHistory :=
        addToHistory (finishedExecution recordsProcessed error vtexResponse now ex)
          s.executionHistory }

/-- cancelProcess(reason): returns false when idle; otherwise forces the
execution to status cancelled with a synthetic error. The lastExecution = none
branch is unreachable while running (the source would fault there). -/
def cancelProcess (reason : String) (now : Int) (s : CoordState) :
    Bool × CoordState :=
  if s.isRunning = false then (false, s)
  else
    match s.lastExecution with
    | none => (false, s)
    | some ex =>
      let ex2 : Execution :=
        { ex with
          endedAt := some now
          status := "cancelled"
          error := some { message := reason, errType := "CANCELLATION"
                          code := none, statusCode := none, stack := none
                          details := none }
          duration := some (now - ex.startedAt) }
      (true,
       { isRunning := false
         lastExecution := some ex2
         executionHistory := addToHistory ex2 s.executionHistory })

/-- canStartNewProcess: not currently running. -/
def canStartNewProcess (s : CoordState) : Bool :=
  !s.isRunning

/-- Result of the POST /api/force-update route. -/
inductive ManualStartResult where
  | conflict (startedAt : Option Int)
  | started (id : Nat)
deriving Repr, DecidableEq

/-- The manual start guard of the force-update route: a 409 conflict carrying
lastExecution.startedAt when running, otherwise startProcess with trigger
manual. -/
def forceUpdateStart (id : Nat) (now : Int) (s : CoordState) :
    ManualStartResult × CoordState :=
  if s.isRunning then
    (ManualStartResult.conflict (s.lastExecution.map fun ex => ex.startedAt), s)
  else
    let p := startProcess "manual" id now s
    (ManualStartResult.started p.1, p.2)

/-- The automatic start guard of executeScheduledTask: silently skip the cycle
when canStartNewProcess is false, otherwise startProcess with trigger auto. -/
def executeScheduledTaskStart (id : Nat) (now : Int) (s : CoordState) :
    Option Nat × CoordState :=
  if canStartNewProcess s = false then (none, s)
  else
    let p := startProcess "auto" id now s
    (some p.1, p.2)

/-- Coordinator states reachable from the constructor state through the public
entry points that mutate it. -/
inductive Reach : CoordState → Prop where
  | init : Reach initState
  | manualStart (id : Nat) (now : Int) (s : CoordState) :
      Reach s → Reach (forceUpdateStart id now s).2
  | autoStart (id : Nat) (now : Int) (s : CoordState) :
      Reach s → Reach (executeScheduledTaskStart id now s).2
  | complete (r : Nat) (e : Option JsError) (v : Option String) (now : Int)
      (s : CoordState) : Reach s → Reach (completeProcess r e v now s)
  | cancelStep (reason : String) (now : Int) (s : CoordState) :
      Reach s → Reach (cancelProcess reason now s).2

/-- Number of executions currently in the running state: the active execution
slot plus any history entries stamped running. -/
def runningExecCount (s : CoordState) : Nat :=
  (match s.lastExecution with
   | some ex => if ex.status = "running" then 1 else 0
   | none => 0) +
  (s.executionHistory.filter fun ex => ex.status = "running").length

/-- Folding a sequence of executions into an initially empty history. -/
def histFold (execs : List Execution) : List Execution :=
  execs.foldl (fun acc ex => addToHistory ex acc) []

/-! ## Source locator (getLatestExcelNameAndDownload, GCP download module) -/

/-- A listed object of the inbox folder: its name and its updated timestamp
(milliseconds), as read from the object metadata. -/
structure GcsObject where
  name : String
  updated : Int
deriving Repr, DecidableEq

/-- JavaScript String.prototype.endsWith, modelled on the character list. -/
def strEndsWith (s suf : String) : Bool :=
  List.isSuffixOf suf.data s.data

/-- The extension filter of the source: name ends in .xlsx or .xls. -/
def isExcelObject (f : GcsObject) : Bool :=
  strEndsWith f.name ".xlsx" || strEndsWith f.name ".xls"

/-- Head of the stable descending sort by updated timestamp used by the
source (sort by b.updated - a.updated, take index 0): the earliest listed
object among those with the maximal timestamp. -/
def pickLatest : List GcsObject → Option GcsObject
  | [] => none
  | f :: rest =>
    some (rest.foldl (fun best g => if best.updated < g.updated then g else best) f)

/-- getLatestExcelNameAndDownload, selection part: error on an empty listing,
filter to spreadsheet extensions, error when none match, otherwise return the
most recently updated candidate (which the source then downloads). -/
def getLatestExcelNameAndDownload (files : List GcsObject) :
    Except String GcsObject :=
  if files.isEmpty then
    Except.error "No se encontraron archivos en la carpeta"
  else
    match pickLatest (files.filter isExcelObject) with
    | none => Except.error "No se encontraron archivos Excel en la carpeta"
    | some latest => Except.ok latest

/-! ## Variant classifier (detectFileType, src/src/services/excelService.js) -/

/-- JavaScript String.prototype.startsWith, modelled on the character list. -/
def strStartsWith (s pre : String) : Bool :=
  List.isPrefixOf pre.data s.data

/-- JavaScript String.prototype.toUpperCase on the character list (the file
name prefixes at issue are ASCII). -/
def strToUpper (s : String) : String :=
  String.mk (s.data.map Char.toUpper)

/-- detectFileType: upper-case the name (empty for null/undefined) and match
the prefix; unknown otherwise. -/
def detectFileType (fileName : Option String) : String :=
  let upper := strToUpper (fileName.getD "")
  if strStartsWith upper "HOME_" then "home"
  else if strStartsWith upper "LOCATIONS_" then "locations"
  else if strStartsWith upper "SELLERS_" then "sellers"
  else "unknown"

/-! ## Portal output file names (saveProcessedData, excelService.js) -/

/-- The OUTPUT_FILE_NAMES dictionary of saveProcessedData. -/
def OUTPUT_FILE_NAMES (fileType : String) : Option String :=
  if fileType = "home" then some "googlesheet.json"
  else if fileType = "locations" then some "locations.json"
  else if fileType = "sellers" then some "sellers.json"
  else none

/-- The file name sent to the portal: dictionary hit or the fallback
output.json. -/
def vtexOutputFileName (fileType : String) : String :=
  (OUTPUT_FILE_NAMES fileType).getD "output.json"

/-- The prefix of the timestamped archive copy uploaded to object storage:
locations/sellers by type, otherwise the Home prefix googleSheet. -/
def gcpArchivePrefix (fileType : String) : String :=
  if fileType = "locations" then "locations"
  else if fileType = "sellers" then "sellers"
  else "googleSheet"

/-! ## Text-mode worksheet cells (sheet_to_json with raw:false, defval '') -/

/-- A cell of a worksheet read in text mode: missing/null (out-of-range
access), a formatted string (the usual case with raw:false; empty cells are
the empty string via defval), or a boolean. -/
inductive TextCell where
  | tnull
  | tstr (s : String)
  | tbool (b : Bool)
deriving Repr, DecidableEq

/-- JavaScript String(value) on a text cell. The tnull case renders as the
word null exactly as String(null) would; every caller tests for null first. -/
def jsStringOfText (c : TextCell) : String :=
  match c with
  | .tnull => "null"
  | .tstr s => s
  | .tbool b => if b then "true" else "false"

/-- JavaScript String.prototype.trim, modelled on the character list with the
ASCII whitespace characters. -/
def strTrim (s : String) : String :=
  String.mk (((s.data.dropWhile Char.isWhitespace).reverse.dropWhile
    Char.isWhitespace).reverse)

/-- The value === null || value === undefined || value === '' test. -/
def isEmptyTextCell (c : TextCell) : Bool :=
  match c with
  | .tnull => true
  | .tstr s => s == ""
  | .tbool _ => false

/-- isValidRow of the source, specialized to text-mode cells: at least one
cell that is non-null, non-empty and non-blank after String(cell).trim(). -/
def isValidTextCell (c : TextCell) : Bool :=
  match c with
  | .tnull => false
  | .tstr s => !(s == "") && !(strTrim s == "")
  | .tbool _ => true

/-- A row is kept when some cell is valid. -/
def isValidRowText (row : List TextCell) : Bool :=
  row.any isValidTextCell

/-! ## Number parsing (JavaScript parseFloat / parseInt, decimal subset) -/

/-- Numeric value of a decimal digit character. -/
def digitVal (c : Char) : Nat :=
  c.toNat - '0'.toNat

/-- Decimal digits to a natural number. -/
def digitsToNat (l : List Char) : Nat :=
  l.foldl (fun acc c => acc * 10 + digitVal c) 0

/-- Leading sign handling shared by parseFloat and parseInt. -/
def splitSign (l : List Char) : Bool × List Char :=
  match l with
  | [] => (false, [])
  | c :: t =>
    if c = '-' then (true, t)
    else if c = '+' then (false, t)
    else (false, c :: t)

/-- Fractional digits following the integer part: a dot then digits. -/
def fracPart (l : List Char) : List Char :=
  match l with
  | [] => []
  | c :: t => if c = '.' then t.takeWhile Char.isDigit else []

/-- Rational value of a parsed sign/integer-digits/fraction-digits triple. -/
def ratOfDigits (neg : Bool) (ip fp : List Char) : ℚ :=
  let mag : ℚ :=
    (digitsToNat ip : ℚ) + (digitsToNat fp : ℚ) / (10 : ℚ) ^ fp.length
  if neg then -mag else mag

/-- JavaScript parseFloat restricted to sign/digits/fraction prefixes
(exponent notation and hex forms play no role in the data at issue and are
not modelled); none models NaN. -/
def parseFloatJS (s : String) : Option ℚ :=
  if ((splitSign s.data).2.takeWhile Char.isDigit).isEmpty
      && (fracPart ((splitSign s.data).2.dropWhile Char.isDigit)).isEmpty then
    none
  else
    some (ratOfDigits (splitSign s.data).1
      ((splitSign s.data).2.takeWhile Char.isDigit)
      (fracPart ((splitSign s.data).2.dropWhile Char.isDigit)))

/-- JavaScript parseInt with radix 10: sign then leading digits; none models
NaN. -/
def parseIntJS (s : String) : Option Int :=
  let p := splitSign s.data
  let ds := p.2.takeWhile Char.isDigit
  if ds.isEmpty then none
  else some (if p.1 then -(digitsToNat ds : Int) else (digitsToNat ds : Int))

/-- Remove the first occurrence of a character, as value.replace(c, '') does
for a single-character search string. -/
def removeFirstOccur : List Char → Char → List Char
  | [], _ => []
  | c :: t, target => if c = target then t else c :: removeFirstOccur t target

/-- String form of replace-first-occurrence-with-empty. -/
def replaceFirst (s : String) (target : Char) : String :=
  String.mk (removeFirstOccur s.data target)

/-! ## Sellers transformation (processSellersData, excelService.js) -/

/-- A JSON-ish scalar produced by the transformations. -/
inductive JVal where
  | vnull
  | vstr (s : String)
  | vnum (q : ℚ)
  | vbool (b : Bool)
deriving Repr, DecidableEq

/-- The HEADER_MAPPING dictionary of processSellersData. -/
def HEADER_MAPPING (h : String) : Option String :=
  if h = "Seller" then some "sellerId"
  else if h = "Abierto desde" then some "openDate"
  else if h = "Nro Ventas" then some "sales"
  else if h = "% entregas a tiempo" then some "delivery"
  else if h = "Calificacion estrellas" then some "stars"
  else if h = "url de \"más productos del vendedor\"" then some "link"
  else if h = "Nuevo seller" then some "isNew"
  else none

/-- The numeric target fields (blank cells coerce to 0 for these). -/
def isNumericSellerField (f : String) : Bool :=
  f == "sales" || f == "stars" || f == "delivery" || f == "isNew"

/-- Per-field coercion of processSellersData: blanks default by field kind;
sales/stars parseFloat; delivery strips the first percent sign then
parseFloat; isNew collapses parseInt to 0 or 1; anything else is the trimmed
string. -/
def coerceSellerField (f : String) (value : TextCell) : JVal :=
  if isEmptyTextCell value then
    if isNumericSellerField f then JVal.vnum 0 else JVal.vstr ""
  else
    if f == "sales" || f == "stars" then
      match parseFloatJS (strTrim (jsStringOfText value)) with
      | none => JVal.vnum 0
      | some n => JVal.vnum n
    else if f == "delivery" then
      match parseFloatJS (strTrim (replaceFirst (strTrim (jsStringOfText value)) '%')) with
      | none => JVal.vnum 0
      | some n => JVal.vnum n
    else if f == "isNew" then
      match parseIntJS (strTrim (jsStringOfText value)) with
      | none => JVal.vnum 0
      | some n => if n = 0 then JVal.vnum 0 else JVal.vnum 1
    else JVal.vstr (strTrim (jsStringOfText value))

/-- The (column index, target field) pairs built from the trimmed header row
through HEADER_MAPPING. -/
def sellerFields (headerRow : List TextCell) : List (Nat × String) :=
  (headerRow.map (fun h => strTrim (jsStringOfText h))).enum.filterMap
    (fun p => (HEADER_MAPPING p.2).map (fun f => (p.1, f)))

/-- JavaScript object property assignment on an association list: overwrite
in place when present, append otherwise. -/
def setField (obj : List (String × JVal)) (k : String) (v : JVal) :
    List (String × JVal) :=
  if obj.any (fun p => p.1 == k) then
    obj.map (fun p => if p.1 == k then (k, v) else p)
  else obj ++ [(k, v)]

/-- Property read on the association list. -/
def lookupField (obj : List (String × JVal)) (k : String) : Option JVal :=
  (obj.find? (fun p => p.1 == k)).map (fun p => p.2)

/-- Build the seller object of one data row: coerce each mapped column. -/
def mkSellerObj (fields : List (Nat × String)) (row : List TextCell) :
    List (String × JVal) :=
  fields.foldl
    (fun obj q => setField obj q.2 (coerceSellerField q.2 (row.getD q.1 .tnull)))
    []

/-- The retention test: sellerObj.sellerId is truthy and not the empty
string. -/
def keepSeller (obj : List (String × JVal)) : Bool :=
  match lookupField obj "sellerId" with
  | some (.vstr s) => !(s == "")
  | some (.vnum q) => !(q == 0)
  | some (.vbool b) => b
  | some .vnull => false
  | none => false

/-- processSellersData on one sheet: filter blank rows, build the objects,
keep those with a seller id. -/
def processSellersRows (headerRow : List TextCell)
    (dataRows : List (List TextCell)) : List (List (String × JVal)) :=
  ((dataRows.filter isValidRowText).map (mkSellerObj (sellerFields headerRow))).filter
    keepSeller

/-! ## Locations transformation (processLocationsData, excelService.js) -/

/-- Cell rendering of the locations path: null/undefined/empty become the
empty string, booleans render upper-case, everything else via String(val). -/
def cellToStringLoc (c : TextCell) : String :=
  match c with
  | .tnull => ""
  | .tstr s => s
  | .tbool b => if b then "TRUE" else "FALSE"

/-- Pop empty strings from the end of a row. -/
def dropTrailingEmpties (l : List String) : List String :=
  ((l.reverse).dropWhile (fun x => x == "")).reverse

/-- One locations data row: render one cell per header column, then strip
trailing empties. -/
def processLocationsRow (numCols : Nat) (row : List TextCell) : List String :=
  dropTrailingEmpties ((List.range numCols).map
    (fun i => cellToStringLoc (row.getD i .tnull)))

/-- A header cell of either text path: String(h).trim(). -/
def headerCellString (c : TextCell) : String :=
  strTrim (jsStringOfText c)

/-- processLocationsData on one sheet: nothing for fewer than two rows;
otherwise the trimmed header row followed by the rendered valid data rows. -/
def processLocationsSheet (rawData : List (List TextCell)) : List (List String) :=
  match rawData with
  | [] => []
  | [_] => []
  | headerRow :: dataRows =>
    (headerRow.map headerCellString) ::
      (dataRows.filter isValidRowText).map
        (processLocationsRow (headerRow.map headerCellString).length)

/-! ## Home transformation (processRawData / processRow / processCellValue) -/

/-- JavaScript String(value) on a raw-mode cell. The numeric case is guarded
by a typeof number test in every caller, so only its integer rendering
matters; the null case renders as the word null as String(null) would. -/
def jsStringOfJVal (v : JVal) : String :=
  match v with
  | .vstr s => s
  | .vbool b => if b then "true" else "false"
  | .vnull => "null"
  | .vnum q => if q.den = 1 then toString q.num else ""

/-- JavaScript String.prototype.toLowerCase on the character list. -/
def strToLower (s : String) : String :=
  String.mk (s.data.map Char.toLower)

/-- Boolean contiguous-substring test on character lists. -/
def listIsInfixOf (needle : List Char) : List Char → Bool
  | [] => needle.isEmpty
  | c :: t => needle.isPrefixOf (c :: t) || listIsInfixOf needle t

/-- header.toLowerCase().includes(needle) for a lower-case needle. -/
def headerContains (header needle : String) : Bool :=
  listIsInfixOf needle.data (strToLower header).data

/-- The value === null || value === undefined || value === '' test. -/
def isEmptyJVal (v : JVal) : Bool :=
  match v with
  | .vnull => true
  | .vstr s => s == ""
  | _ => false

/-- Tail admitted by the numeric-literal regexp after the leading digits:
nothing, or a dot followed only by digits. -/
def afterDigitsOk (l : List Char) : Bool :=
  match l with
  | [] => true
  | c :: t => c == '.' && t.all Char.isDigit

/-- The /^\d+\.?\d*$/ test of processCellValue. -/
def numericLiteralRE (s : String) : Bool :=
  !(s.data.takeWhile Char.isDigit).isEmpty
    && afterDigitsOk (s.data.dropWhile Char.isDigit)

/-- Two-digit zero padding, String(n).padStart(2, '0'). -/
def pad2 (n : Nat) : String :=
  if n < 10 then "0" ++ toString n else toString n

/-- Three-digit zero padding for ISO milliseconds. -/
def pad3 (n : Nat) : String :=
  if n < 10 then "00" ++ toString n
  else if n < 100 then "0" ++ toString n
  else toString n

/-- Four-digit zero padding for ISO years. -/
def pad4 (n : Nat) : String :=
  if n < 10 then "000" ++ toString n
  else if n < 100 then "00" ++ toString n
  else if n < 1000 then "0" ++ toString n
  else toString n

/-- Date.UTC(1899, 11, 30) in milliseconds. -/
def excelEpochMs : Int := -2209161600000

/-- JavaScript number-to-time-value truncation (toward zero). -/
def jsTruncRat (q : ℚ) : Int :=
  if q < 0 then -(Int.floor (-q)) else Int.floor q

/-- excelEpoch.getTime() + value * 24 * 60 * 60 * 1000 as an exact rational. -/
def ratMsOfSerial (serial : ℚ) : ℚ :=
  (excelEpochMs : ℚ) + serial * 86400000

/-- Proleptic Gregorian date from a day count since 0000-03-01 (era-based
civil-from-days algorithm; all quantities stay non-negative). -/
def civilFromDayNumber (z : Nat) : Nat × Nat × Nat :=
  let era := z / 146097
  let doe := z % 146097
  let yoe := (doe - doe / 1460 + doe / 36524 - doe / 146096) / 365
  let y := yoe + era * 400
  let doy := doe - (365 * yoe + yoe / 4 - yoe / 100)
  let mp := (5 * doy + 2) / 153
  let d := doy - (153 * mp + 2) / 5 + 1
  let m := if mp < 10 then mp + 3 else mp - 9
  (if m ≤ 2 then y + 1 else y, m, d)

/-- The dd/mm/yyyy HH:MM:SS rendering of a millisecond time value, shifted to
the local clock by the host UTC offset (the source uses the local getDate,
getMonth, getHours accessors). -/
def formatFromTimeValue (tzOffsetMin : Int) (t : Int) : String :=
  let lt : Int := t + tzOffsetMin * 60000
  let day : Int := Int.fdiv lt 86400000
  let msOfDay : Nat := (lt - day * 86400000).toNat
  let zdays : Nat := (day + 719468).toNat
  let c := civilFromDayNumber zdays
  pad2 c.2.2 ++ "/" ++ pad2 c.2.1 ++ "/" ++ toString c.1 ++ " " ++
    pad2 (msOfDay / 3600000) ++ ":" ++ pad2 (msOfDay % 3600000 / 60000) ++ ":" ++
    pad2 (msOfDay % 60000 / 1000)

/-- The inicio/fin branch of processCellValue on a numeric cell: treat the
number as a spreadsheet serial counted from 1899-12-30, scale days to
milliseconds, and format dd/mm/yyyy HH:MM:SS. -/
def formatExcelSerial (tzOffsetMin : Int) (serial : ℚ) : String :=
  formatFromTimeValue tzOffsetMin (jsTruncRat (ratMsOfSerial serial))

/-- Date.prototype.toISOString (UTC) of a millisecond time value. -/
def isoOfMs (t : Int) : String :=
  let day : Int := Int.fdiv t 86400000
  let msOfDay : Nat := (t - day * 86400000).toNat
  let zdays : Nat := (day + 719468).toNat
  let c := civilFromDayNumber zdays
  pad4 c.1 ++ "-" ++ pad2 c.2.1 ++ "-" ++ pad2 c.2.2 ++ "T" ++
    pad2 (msOfDay / 3600000) ++ ":" ++ pad2 (msOfDay % 3600000 / 60000) ++ ":" ++
    pad2 (msOfDay % 60000 / 1000) ++ "." ++ pad3 (msOfDay % 1000) ++ "Z"

/-- processCellValue. The new Date(string) parser of the fecha/date branch is
implementation-defined in JavaScript and passed in as the dateParse oracle
(none models an invalid date); tzOffsetMin is the host UTC offset used by the
local accessors. -/
def processCellValue (dateParse : String → Option Int) (tzOffsetMin : Int)
    (value : JVal) (header : String) : JVal :=
  if isEmptyJVal value then JVal.vnull
  else if headerContains header "inicio" || headerContains header "fin" then
    match value with
    | .vnum q => JVal.vstr (formatExcelSerial tzOffsetMin q)
    | v => JVal.vstr (jsStringOfJVal v)
  else
    match value with
    | .vnum q => JVal.vnum q
    | .vstr s =>
      if numericLiteralRE (strTrim s) then
        match parseFloatJS (strTrim s) with
        | some n => JVal.vnum n
        | none => JVal.vstr (strTrim s)
      else if headerContains header "fecha" || headerContains header "date" then
        match dateParse (strTrim s) with
        | some t => JVal.vstr (isoOfMs t)
        | none => JVal.vstr (strTrim s)
      else JVal.vstr (strTrim s)
    | v => v

/-- isValidRow on raw-mode cells: numbers and booleans always render to a
non-blank String(cell); strings must be non-empty and non-blank. -/
def isValidCellHome (c : JVal) : Bool :=
  match c with
  | .vnull => false
  | .vstr s => !(s == "") && !(strTrim s == "")
  | .vnum _ => true
  | .vbool _ => true

/-- A home data row is kept when some cell is valid. -/
def isValidRowHome (row : List JVal) : Bool :=
  row.any isValidCellHome

/-- Word characters of the \w regexp class. -/
def isWordChar (c : Char) : Bool :=
  c.isAlphanum || c == '_'

/-- Global replacement of runs of p-characters by a single rep character
(the inRun flag tracks whether the previous character was in a run). -/
def collapseRunsGo (p : Char → Bool) (rep : Char) : Bool → List Char → List Char
  | _, [] => []
  | inRun, c :: t =>
    if p c then
      if inRun then collapseRunsGo p rep true t
      else rep :: collapseRunsGo p rep true t
    else c :: collapseRunsGo p rep false t

/-- replace(/run+/g, rep) over the whole list. -/
def collapseRuns (p : Char → Bool) (rep : Char) (l : List Char) : List Char :=
  collapseRunsGo p rep false l

/-- Drop one leading underscore (first half of replace(/^_|_$/g, '')). -/
def dropOneLeadUnderscore (l : List Char) : List Char :=
  match l with
  | [] => []
  | c :: t => if c = '_' then t else c :: t

/-- Drop one trailing underscore (second half of replace(/^_|_$/g, '')). -/
def dropOneTrailUnderscore (l : List Char) : List Char :=
  (dropOneLeadUnderscore l.reverse).reverse

/-- cleanHeaderName: trim, lower-case, whitespace runs to underscore, strip
non-word non-space characters, collapse underscore runs, strip one leading
and one trailing underscore. -/
def cleanHeaderName (header : String) : String :=
  String.mk (dropOneTrailUnderscore (dropOneLeadUnderscore
    (collapseRuns (fun c => c == '_') '_'
      ((collapseRuns Char.isWhitespace '_'
        ((strTrim header).data.map Char.toLower)).filter
        (fun c => isWordChar c || c.isWhitespace)))))

/-- One transformed home record: provenance metadata plus the coerced cells
keyed by cleaned header names. -/
structure HomeRecord where
  sourceSheet : String
  sourceRow : Nat
  processedAt : String
  fields : List (String × JVal)
deriving Repr, DecidableEq

/-- processRow: skip blank headers, coerce each cell under its cleaned
header name. -/
def processRowHome (dateParse : String → Option Int) (tzOffsetMin : Int)
    (headers : List String) (row : List JVal) (rowNumber : Nat)
    (sheetName nowStr : String) : HomeRecord :=
  { sourceSheet := sheetName
    sourceRow := rowNumber
    processedAt := nowStr
    fields := headers.enum.foldl
      (fun acc p =>
        if !(p.2 == "") && !(strTrim p.2 == "") then
          setField acc (cleanHeaderName p.2)
            (processCellValue dateParse tzOffsetMin (row.getD p.1 .vnull) p.2)
        else acc) [] }

/-- processRawData on one sheet: nothing without a data row; otherwise map
the valid data rows to records, numbering them from 2 within the filtered
sequence. -/
def processRawData (dateParse : String → Option Int) (tzOffsetMin : Int)
    (sheetName nowStr : String) (headers : List String)
    (dataRows : List (List JVal)) : List HomeRecord :=
  if dataRows.isEmpty then []
  else (dataRows.filter isValidRowHome).enum.map
    (fun p => processRowHome dateParse tzOffsetMin headers p.2 (p.1 + 2)
      sheetName nowStr)

/-! ## Theorems -/

/-- Helper: both completion and cancellation only append terminal entries. -/
theorem addToHistory_status (ex : Execution) (h : List Execution)
    (hall : ∀ e ∈ h, e.status ≠ "running") (hex : ex.status ≠ "running") :
    ∀ e ∈ addToHistory ex h, e.status ≠ "running" := by
  intro e he
  unfold addToHistory at he
  by_cases hc : maxHistorySize < (h ++ [ex]).length
  · simp only [hc, if_true] at he
    have := List.mem_of_mem_drop he
    rcases List.mem_append.mp this with h1 | h2
    · exact hall e h1
    · simp only [List.mem_singleton] at h2
      exact h2 ▸ hex
  · simp only [hc, if_false] at he
    rcases List.mem_append.mp he with h1 | h2
    · exact hall e h1
    · simp only [List.mem_singleton] at h2
      exact h2 ▸ hex

/-- Invariant: in every reachable state, every history entry is terminal. -/
theorem reach_hist_terminal (s : CoordState) (h : Reach s) :
    ∀ e ∈ s.executionHistory, e.status ≠ "running" := by
  induction h with
  | init => intro e he; simp [initState] at he
  | manualStart id now s _ ih =>
    intro e he
    unfold forceUpdateStart at he
    by_cases hr : s.isRunning
    · simp only [hr, if_true] at he
      exact ih e he
    · simp only [hr, if_false, startProcess] at he
      exact ih e he
  | autoStart id now s _ ih =>
    intro e he
    unfold executeScheduledTaskStart at he
    by_cases hr : canStartNewProcess s = false
    · simp only [hr, if_true] at he
      exact ih e he
    · simp only [hr, if_false, startProcess] at he
      exact ih e he
  | complete r err v now s _ ih =>
    intro e he
    unfold completeProcess at he
    cases hl : s.lastExecution with
    | none => rw [hl] at he; exact ih e he
    | some ex =>
      rw [hl] at he
      simp only at he
      refine addToHistory_status _ _ ih ?_ e he
      unfold finishedExecution
      by_cases herr : err.isSome
      · simp only [herr, if_true]
        intro hcontra
        exact absurd hcontra (by decide)
      · simp only [herr, if_false]
        intro hcontra
        exact absurd hcontra (by decide)
  | cancelStep reason now s _ ih =>
    intro e he
    unfold cancelProcess at he
    by_cases hr : s.isRunning = false
    · simp only [hr, if_true] at he
      exact ih e he
    · simp only [hr, if_false] at he
      cases hl : s.lastExecution with
      | none => rw [hl] at he; exact ih e he
      | some ex =>
        rw [hl] at he
        simp only at he
        refine addToHistory_status _ _ ih ?_ e he
        simp

/-- C1. Single-flight exclusion: in a reachable running state, a manual start
returns a conflict leaving the state untouched, an automatic start silently
no-ops, and at most one execution is in the running state. -/
theorem single_flight_exclusion (s : CoordState) (h : Reach s)
    (hr : s.isRunning = true) (id : Nat) (now : Int) :
    forceUpdateStart id now s =
      (ManualStartResult.conflict (s.lastExecution.map fun ex => ex.startedAt), s)
    ∧ executeScheduledTaskStart id now s = (none, s)
    ∧ runningExecCount s ≤ 1 := by
  refine ⟨?_, ?_, ?_⟩
  · unfold forceUpdateStart
    simp [hr]
  · unfold executeScheduledTaskStart canStartNewProcess
    simp [hr]
  · unfold runningExecCount
    have hfilter : (s.executionHistory.filter fun ex => ex.status = "running") = [] := by
      apply List.filter_eq_nil_iff.mpr
      intro e he
      have := reach_hist_terminal s h e he
      simpa using this
    rw [hfilter]
    cases s.lastExecution with
    | none => simp
    | some ex =>
      by_cases hst : ex.status = "running" <;> simp [hst]

/-- Witness for C1 at the state reached by one automatic start from the
initial state. -/
theorem single_flight_exclusion_witness :
    forceUpdateStart 2 200 (executeScheduledTaskStart 1 100 initState).2 =
      (ManualStartResult.conflict (some 100),
       (executeScheduledTaskStart 1 100 initState).2)
    ∧ executeScheduledTaskStart 2 200 (executeScheduledTaskStart 1 100 initState).2 =
      (none, (executeScheduledTaskStart 1 100 initState).2)
    ∧ runningExecCount (executeScheduledTaskStart 1 100 initState).2 ≤ 1 := by
  have h :=
    single_flight_exclusion (executeScheduledTaskStart 1 100 initState).2
      (Reach.autoStart 1 100 initState Reach.init) (by decide) 2 200
  exact ⟨h.1, h.2.1, h.2.2⟩

/-- Appending to a list and dropping the head keeps the appended last element
once the list has at least one element in front of it. -/
theorem addToHistory_eq (ex : Execution) (h : List Execution) :
    addToHistory ex h =
      if maxHistorySize < h.length + 1 then (h ++ [ex]).drop 1 else h ++ [ex] := by
  unfold addToHistory
  simp

/-- The last element of the history after an append is the appended execution. -/
theorem addToHistory_getLast (ex : Execution) (h : List Execution) :
    (addToHistory ex h).getLast? = some ex := by
  rw [addToHistory_eq]
  by_cases hc : maxHistorySize < h.length + 1
  · simp only [hc, if_true]
    have hlen : 1 ≤ h.length := by
      unfold maxHistorySize at hc; omega
    rw [List.drop_append_of_le_length hlen]
    exact List.getLast?_concat _
  · simp only [hc, if_false]
    exact List.getLast?_concat _

/-- C2. completeProcess on a state with an active execution: flips the running
flag to false, appends exactly one finished entry at the end of the history
(through the bounded append), and stamps terminal status, endedAt and
duration = endedAt - startedAt. -/
theorem completeProcess_spec (s : CoordState) (ex : Execution)
    (h : s.lastExecution = some ex) (r : Nat) (e : Option JsError)
    (v : Option String) (now : Int) :
    (completeProcess r e v now s).isRunning = false
    ∧ ∃ fin : Execution,
        (completeProcess r e v now s).lastExecution = some fin
        ∧ fin.status = (if e.isSome then "failed" else "completed")
        ∧ fin.endedAt = some now
        ∧ fin.duration = some (now - ex.startedAt)
        ∧ fin.recordsProcessed = r
        ∧ fin.error = e.map serializeError
        ∧ (completeProcess r e v now s).executionHistory =
            addToHistory fin s.executionHistory
        ∧ (completeProcess r e v now s).executionHistory.getLast? = some fin
        ∧ (s.executionHistory.length < maxHistorySize →
            (completeProcess r e v now s).executionHistory =
              s.executionHistory ++ [fin]) := by
  have hc : completeProcess r e v now s =
      { isRunning := false
        lastExecution := some (finishedExecution r e v now ex)
        executionHistory :=
          addToHistory (finishedExecution r e v now ex) s.executionHistory } := by
    unfold completeProcess
    rw [h]
  refine ⟨by rw [hc], finishedExecution r e v now ex, by rw [hc], rfl, rfl, rfl,
    rfl, rfl, by rw [hc], ?_, ?_⟩
  · rw [hc]
    exact addToHistory_getLast _ _
  · intro hlt
    rw [hc, addToHistory_eq]
    have hnc : ¬ maxHistorySize < s.executionHistory.length + 1 := by omega
    simp [hnc]

/-- Witness for C2: completing the execution started automatically from the
initial state, with an error present. -/
theorem completeProcess_spec_witness :
    (completeProcess 7
        (some { message := some "boom", errType := none, code := none
                statusCode := none, stack := none, details := none })
        none 350 (executeScheduledTaskStart 1 100 initState).2).isRunning = false
    ∧ ∃ fin : Execution,
        (completeProcess 7
            (some { message := some "boom", errType := none, code := none
                    statusCode := none, stack := none, details := none })
            none 350 (executeScheduledTaskStart 1 100 initState).2).lastExecution
          = some fin
        ∧ fin.status = "failed"
        ∧ fin.endedAt = some 350
        ∧ fin.duration = some 250
        ∧ (completeProcess 7
            (some { message := some "boom", errType := none, code := none
                    statusCode := none, stack := none, details := none })
            none 350 (executeScheduledTaskStart 1 100 initState).2).executionHistory.length = 1 := by
  have h :=
    completeProcess_spec (executeScheduledTaskStart 1 100 initState).2
      { id := 1, trigger := "auto", startedAt := 100, endedAt := none
        status := "running", recordsProcessed := 0, error := none
        vtexResponse := none, duration := none }
      rfl 7
      (some { message := some "boom", errType := none, code := none
              statusCode := none, stack := none, details := none })
      none 350
  obtain ⟨h1, fin, h2, h3, h4, h5, _, _, _, _, h9⟩ := h
  refine ⟨h1, fin, h2, by simpa using h3, h4, by simpa using h5, ?_⟩
  have := h9 (by decide)
  rw [this]
  simp [executeScheduledTaskStart, startProcess, initState, canStartNewProcess]

/-- Generalized fold lemma: starting from any in-bound history, the bounded
append keeps exactly the most recent 50 entries of the appended stream. -/
theorem foldl_addToHistory (execs : List Execution) :
    ∀ h : List Execution, h.length ≤ maxHistorySize →
      execs.foldl (fun acc ex => addToHistory ex acc) h =
        (h ++ execs).drop (h.length + execs.length - maxHistorySize) := by
  induction execs with
  | nil =>
    intro h hb
    simp only [List.foldl_nil, List.append_nil, List.length_nil, Nat.add_zero]
    have hz : h.length - maxHistorySize = 0 := Nat.sub_eq_zero_of_le hb
    rw [hz, List.drop_zero]
  | cons ex rest ih =>
    intro h hb
    simp only [List.foldl_cons]
    rw [addToHistory_eq]
    by_cases hc : maxHistorySize < h.length + 1
    · simp only [hc, if_true]
      have hlen : h.length = maxHistorySize := Nat.le_antisymm hb (by omega)
      have h1le : 1 ≤ h.length := by
        rw [hlen]; decide
      have hdroplen : ((h ++ [ex]).drop 1).length ≤ maxHistorySize := by
        simp only [List.length_drop, List.length_append, List.length_cons,
          List.length_nil]
        omega
      rw [ih _ hdroplen]
      rw [List.drop_append_of_le_length h1le]
      have e1 : (h.drop 1 ++ [ex]) ++ rest = (h ++ ex :: rest).drop 1 := by
        rw [List.drop_append_of_le_length h1le]
        simp
      rw [e1, List.drop_drop]
      congr 1
      simp only [List.length_append, List.length_drop, List.length_cons,
        List.length_nil]
      omega
    · simp only [hc, if_false]
      have hblen : (h ++ [ex]).length ≤ maxHistorySize := by
        simp only [List.length_append, List.length_cons, List.length_nil]
        omega
      rw [ih _ hblen]
      have e2 : (h ++ [ex]) ++ rest = h ++ (ex :: rest) := by simp
      rw [e2]
      congr 1
      simp only [List.length_append, List.length_cons, List.length_nil]
      omega

/-- C3. History bound: after appending any sequence of executions to an
initially empty history, exactly the most recent 50 remain in insertion order
(so the length never exceeds 50), and the 51st append evicts exactly the
oldest entry, leaving 50 with the most recent last. -/
theorem history_bound (execs : List Execution) :
    histFold execs = execs.drop (execs.length - maxHistorySize)
    ∧ (histFold execs).length ≤ maxHistorySize
    ∧ (execs.length = maxHistorySize + 1 →
        histFold execs = execs.drop 1 ∧ (histFold execs).length = maxHistorySize) := by
  have heq : histFold execs = execs.drop (execs.length - maxHistorySize) := by
    unfold histFold
    have := foldl_addToHistory execs [] (by simp)
    simpa using this
  refine ⟨heq, ?_, ?_⟩
  · rw [heq, List.length_drop]
    omega
  · intro h51
    constructor
    · rw [heq, h51]
      simp
    · rw [heq, List.length_drop, h51]
      simp

/-- Witness for C3 at a concrete 51-element sequence: the fold keeps the last
50 entries and drops the oldest. -/
theorem history_bound_witness :
    ((List.range 51).map (fun i =>
        ({ id := i, trigger := "auto", startedAt := 0, endedAt := none
           status := "completed", recordsProcessed := 0, error := none
           vtexResponse := none, duration := none } : Execution))).length = 51
    ∧ histFold ((List.range 51).map (fun i =>
        ({ id := i, trigger := "auto", startedAt := 0, endedAt := none
           status := "completed", recordsProcessed := 0, error := none
           vtexResponse := none, duration := none } : Execution))) =
      ((List.range 51).map (fun i =>
        ({ id := i, trigger := "auto", startedAt := 0, endedAt := none
           status := "completed", recordsProcessed := 0, error := none
           vtexResponse := none, duration := none } : Execution))).drop 1
    ∧ (histFold ((List.range 51).map (fun i =>
        ({ id := i, trigger := "auto", startedAt := 0, endedAt := none
           status := "completed", recordsProcessed := 0, error := none
           vtexResponse := none, duration := none } : Execution)))).length = 50 := by
  have hlen : ((List.range 51).map (fun i =>
      ({ id := i, trigger := "auto", startedAt := 0, endedAt := none
         status := "completed", recordsProcessed := 0, error := none
         vtexResponse := none, duration := none } : Execution))).length = 51 := by
    simp
  have h := (history_bound _).2.2 hlen
  exact ⟨hlen, h.1, h.2⟩

/-- C10. completeProcess before any execution has been started is a complete
no-op: the state is returned unchanged. -/
theorem completeProcess_noop (s : CoordState) (h : s.lastExecution = none)
    (r : Nat) (e : Option JsError) (v : Option String) (now : Int) :
    completeProcess r e v now s = s := by
  unfold completeProcess
  rw [h]

/-- Witness for C10 at the initial coordinator state. -/
theorem completeProcess_noop_witness :
    completeProcess 3 none none 500 initState = initState :=
  completeProcess_noop initState rfl 3 none none 500

/-- The fold used by pickLatest returns its seed or a member of the list. -/
theorem pickLatest_fold_mem (l : List GcsObject) :
    ∀ b : GcsObject,
      (l.foldl (fun best g => if best.updated < g.updated then g else best) b) = b
      ∨ (l.foldl (fun best g => if best.updated < g.updated then g else best) b) ∈ l := by
  induction l with
  | nil => intro b; left; rfl
  | cons g rest ih =>
    intro b
    simp only [List.foldl_cons]
    by_cases hlt : b.updated < g.updated
    · simp only [hlt, if_true]
      rcases ih g with h | h
      · right; rw [h]; exact List.mem_cons_self _ _
      · right; exact List.mem_cons_of_mem _ h
    · simp only [hlt, if_false]
      rcases ih b with h | h
      · left; exact h
      · right; exact List.mem_cons_of_mem _ h

/-- The fold used by pickLatest dominates its seed and every list element. -/
theorem pickLatest_fold_ge (l : List GcsObject) :
    ∀ b : GcsObject,
      b.updated ≤ (l.foldl (fun best g => if best.updated < g.updated then g else best) b).updated
      ∧ ∀ g ∈ l,
          g.updated ≤ (l.foldl (fun best g => if best.updated < g.updated then g else best) b).updated := by
  induction l with
  | nil =>
    intro b
    exact ⟨le_refl _, by intro g hg; simp at hg⟩
  | cons g rest ih =>
    intro b
    simp only [List.foldl_cons]
    by_cases hlt : b.updated < g.updated
    · simp only [hlt, if_true]
      refine ⟨le_trans (le_of_lt hlt) (ih g).1, ?_⟩
      intro x hx
      rcases List.mem_cons.mp hx with hx | hx
      · rw [hx]; exact (ih g).1
      · exact (ih g).2 x hx
    · simp only [hlt, if_false]
      refine ⟨(ih b).1, ?_⟩
      intro x hx
      rcases List.mem_cons.mp hx with hx | hx
      · rw [hx]; exact le_trans (le_of_not_lt hlt) (ih b).1
      · exact (ih b).2 x hx

/-- C4. Source selection: when the listing has at least one object with a
spreadsheet extension, the selection succeeds with a matching object of the
listing whose updated timestamp dominates all matching objects; when no object
matches, the selection fails with an error. -/
theorem locate_latest_excel (files : List GcsObject) :
    ((∃ f ∈ files, isExcelObject f = true) →
      ∃ g, getLatestExcelNameAndDownload files = Except.ok g
        ∧ g ∈ files ∧ isExcelObject g = true
        ∧ ∀ f ∈ files, isExcelObject f = true → f.updated ≤ g.updated)
    ∧ ((∀ f ∈ files, isExcelObject f = false) →
      ∃ msg, getLatestExcelNameAndDownload files = Except.error msg) := by
  constructor
  · rintro ⟨f, hf, hxl⟩
    have hne : files.isEmpty = false := by
      cases files with
      | nil => simp at hf
      | cons a t => rfl
    have hmemf : f ∈ files.filter isExcelObject := List.mem_filter.mpr ⟨hf, hxl⟩
    unfold getLatestExcelNameAndDownload
    rw [hne]
    simp only [Bool.false_eq_true, if_false]
    cases hfil : files.filter isExcelObject with
    | nil => rw [hfil] at hmemf; simp at hmemf
    | cons a t =>
      simp only [pickLatest]
      refine ⟨t.foldl (fun best g => if best.updated < g.updated then g else best) a,
        rfl, ?_, ?_, ?_⟩
      · rcases pickLatest_fold_mem t a with h | h
        · rw [h]
          have ha : a ∈ files.filter isExcelObject := by
            rw [hfil]; exact List.mem_cons_self _ _
          exact (List.mem_filter.mp ha).1
        · have hm : t.foldl (fun best g => if best.updated < g.updated then g else best) a
              ∈ files.filter isExcelObject := by
            rw [hfil]; exact List.mem_cons_of_mem _ h
          exact (List.mem_filter.mp hm).1
      · rcases pickLatest_fold_mem t a with h | h
        · rw [h]
          have ha : a ∈ files.filter isExcelObject := by
            rw [hfil]; exact List.mem_cons_self _ _
          exact (List.mem_filter.mp ha).2
        · have hm : t.foldl (fun best g => if best.updated < g.updated then g else best) a
              ∈ files.filter isExcelObject := by
            rw [hfil]; exact List.mem_cons_of_mem _ h
          exact (List.mem_filter.mp hm).2
      · intro x hx hxexcel
        have hmx : x ∈ files.filter isExcelObject := List.mem_filter.mpr ⟨hx, hxexcel⟩
        rw [hfil] at hmx
        rcases List.mem_cons.mp hmx with hxa | hxt
        · rw [hxa]; exact (pickLatest_fold_ge t a).1
        · exact (pickLatest_fold_ge t a).2 x hxt
  · intro hnone
    have hfil : files.filter isExcelObject = [] := by
      apply List.filter_eq_nil_iff.mpr
      intro f hf
      rw [hnone f hf]
      simp
    unfold getLatestExcelNameAndDownload
    by_cases he : files.isEmpty
    · rw [he]
      exact ⟨_, rfl⟩
    · simp only [he, if_false]
      rw [hfil]
      exact ⟨_, rfl⟩

/-- Witness for C4: a three-object listing with two spreadsheet candidates
yields the candidate with the greater timestamp; a listing with no candidate
yields an error. -/
theorem locate_latest_excel_witness :
    getLatestExcelNameAndDownload
        [{ name := "Archivos_sheets/HOME_a.xlsx", updated := 10 },
         { name := "Archivos_sheets/readme.txt", updated := 99 },
         { name := "Archivos_sheets/SELLERS_b.xls", updated := 42 }] =
      Except.ok { name := "Archivos_sheets/SELLERS_b.xls", updated := 42 }
    ∧ (∃ g, getLatestExcelNameAndDownload
          [{ name := "Archivos_sheets/HOME_a.xlsx", updated := 10 },
           { name := "Archivos_sheets/readme.txt", updated := 99 },
           { name := "Archivos_sheets/SELLERS_b.xls", updated := 42 }] = Except.ok g
        ∧ ∀ f ∈ [{ name := "Archivos_sheets/HOME_a.xlsx", updated := 10 },
                 { name := "Archivos_sheets/readme.txt", updated := 99 },
                 ({ name := "Archivos_sheets/SELLERS_b.xls", updated := 42 } : GcsObject)],
            isExcelObject f = true → f.updated ≤ g.updated)
    ∧ (∃ msg, getLatestExcelNameAndDownload
        [{ name := "Archivos_sheets/readme.txt", updated := 99 }] =
      Except.error msg) := by
  refine ⟨by rfl, ?_, ?_⟩
  · obtain ⟨g, hg, _, _, hmax⟩ :=
      (locate_latest_excel
        [{ name := "Archivos_sheets/HOME_a.xlsx", updated := 10 },
         { name := "Archivos_sheets/readme.txt", updated := 99 },
         { name := "Archivos_sheets/SELLERS_b.xls", updated := 42 }]).1
        ⟨{ name := "Archivos_sheets/HOME_a.xlsx", updated := 10 },
          by simp, by decide⟩
    exact ⟨g, hg, hmax⟩
  · exact (locate_latest_excel
      [{ name := "Archivos_sheets/readme.txt", updated := 99 }]).2
      (by intro f hf; simp at hf; rw [hf]; decide)

/-- A Boolean prefix test forces the head of the list. -/
theorem isPrefixOf_head (a : Char) (as l : List Char)
    (h : List.isPrefixOf (a :: as) l = true) : ∃ t, l = a :: t := by
  cases l with
  | nil => exact absurd h (by simp [List.isPrefixOf])
  | cons b bs =>
    have hab : (a == b && List.isPrefixOf as bs) = true := h
    have : a = b := eq_of_beq (Bool.and_eq_true_iff.mp hab).1
    exact ⟨bs, by rw [this]⟩

/-- The three variant prefixes are pairwise exclusive (distinct first
characters). -/
theorem variant_prefixes_exclusive (l : List Char) :
    (List.isPrefixOf "HOME_".data l = true →
      List.isPrefixOf "LOCATIONS_".data l = false
      ∧ List.isPrefixOf "SELLERS_".data l = false)
    ∧ (List.isPrefixOf "LOCATIONS_".data l = true →
      List.isPrefixOf "SELLERS_".data l = false) := by
  have eH : "HOME_".data = 'H' :: "OME_".data := rfl
  have eL : "LOCATIONS_".data = 'L' :: "OCATIONS_".data := rfl
  have eS : "SELLERS_".data = 'S' :: "ELLERS_".data := rfl
  constructor
  · intro hH
    rw [eH] at hH
    obtain ⟨t, rfl⟩ := isPrefixOf_head _ _ _ hH
    constructor
    · rw [eL]
      by_contra hfalse
      have : List.isPrefixOf ('L' :: "OCATIONS_".data) ('H' :: t) = true := by
        revert hfalse
        cases List.isPrefixOf ('L' :: "OCATIONS_".data) ('H' :: t) <;> simp
      obtain ⟨t2, ht2⟩ := isPrefixOf_head _ _ _ this
      injection ht2 with hc _
      exact absurd hc (by decide)
    · rw [eS]
      by_contra hfalse
      have : List.isPrefixOf ('S' :: "ELLERS_".data) ('H' :: t) = true := by
        revert hfalse
        cases List.isPrefixOf ('S' :: "ELLERS_".data) ('H' :: t) <;> simp
      obtain ⟨t2, ht2⟩ := isPrefixOf_head _ _ _ this
      injection ht2 with hc _
      exact absurd hc (by decide)
  · intro hL
    rw [eL] at hL
    obtain ⟨t, rfl⟩ := isPrefixOf_head _ _ _ hL
    rw [eS]
    by_contra hfalse
    have : List.isPrefixOf ('S' :: "ELLERS_".data) ('L' :: t) = true := by
      revert hfalse
      cases List.isPrefixOf ('S' :: "ELLERS_".data) ('L' :: t) <;> simp
    obtain ⟨t2, ht2⟩ := isPrefixOf_head _ _ _ this
    injection ht2 with hc _
    exact absurd hc (by decide)

/-- C5. classify is a total, deterministic, pure function of the file name:
each upper-cased prefix maps to its variant, everything else (including a
missing name) maps to unknown, and the spec examples evaluate as stated. -/
theorem classify_total (fileName : Option String) :
    (strStartsWith (strToUpper (fileName.getD "")) "HOME_" = true →
        detectFileType fileName = "home")
    ∧ (strStartsWith (strToUpper (fileName.getD "")) "LOCATIONS_" = true →
        detectFileType fileName = "locations")
    ∧ (strStartsWith (strToUpper (fileName.getD "")) "SELLERS_" = true →
        detectFileType fileName = "sellers")
    ∧ (strStartsWith (strToUpper (fileName.getD "")) "HOME_" = false →
        strStartsWith (strToUpper (fileName.getD "")) "LOCATIONS_" = false →
        strStartsWith (strToUpper (fileName.getD "")) "SELLERS_" = false →
        detectFileType fileName = "unknown")
    ∧ detectFileType (some "HOME_2025.xlsx") = "home"
    ∧ detectFileType (some "LOCATIONS_RD.xlsx") = "locations"
    ∧ detectFileType (some "SELLERS_Q1.xls") = "sellers"
    ∧ detectFileType (some "misc.xlsx") = "unknown"
    ∧ detectFileType none = "unknown" := by
  refine ⟨?_, ?_, ?_, ?_, by decide, by decide, by decide, by decide, by decide⟩
  · intro hH
    unfold detectFileType
    simp only [hH, if_true]
  · intro hL
    have hnotH : strStartsWith (strToUpper (fileName.getD "")) "HOME_" = false := by
      by_contra hfalse
      have hH : strStartsWith (strToUpper (fileName.getD "")) "HOME_" = true := by
        revert hfalse
        cases strStartsWith (strToUpper (fileName.getD "")) "HOME_" <;> simp
      have := ((variant_prefixes_exclusive (strToUpper (fileName.getD "")).data).1 hH).1
      unfold strStartsWith at hL
      rw [hL] at this
      exact absurd this (by decide)
    unfold detectFileType
    simp only [hnotH, hL, Bool.false_eq_true, if_false, if_true]
  · intro hS
    have hnotH : strStartsWith (strToUpper (fileName.getD "")) "HOME_" = false := by
      by_contra hfalse
      have hH : strStartsWith (strToUpper (fileName.getD "")) "HOME_" = true := by
        revert hfalse
        cases strStartsWith (strToUpper (fileName.getD "")) "HOME_" <;> simp
      have := ((variant_prefixes_exclusive (strToUpper (fileName.getD "")).data).1 hH).2
      unfold strStartsWith at hS
      rw [hS] at this
      exact absurd this (by decide)
    have hnotL : strStartsWith (strToUpper (fileName.getD "")) "LOCATIONS_" = false := by
      by_contra hfalse
      have hL : strStartsWith (strToUpper (fileName.getD "")) "LOCATIONS_" = true := by
        revert hfalse
        cases strStartsWith (strToUpper (fileName.getD "")) "LOCATIONS_" <;> simp
      have := (variant_prefixes_exclusive (strToUpper (fileName.getD "")).data).2 hL
      unfold strStartsWith at hS
      rw [hS] at this
      exact absurd this (by decide)
    unfold detectFileType
    simp only [hnotH, hnotL, hS, Bool.false_eq_true, if_false, if_true]
  · intro h1 h2 h3
    unfold detectFileType
    simp only [h1, h2, h3, Bool.false_eq_true, if_false]

/-- Witness for C5: the general prefix implications applied at concrete
names. -/
theorem classify_total_witness :
    detectFileType (some "home_new.xlsx") = "home"
    ∧ detectFileType (some "Locations_PRD_v2.xlsx") = "locations"
    ∧ detectFileType (some "sellers_export.xls") = "sellers"
    ∧ detectFileType (some "report.xlsx") = "unknown" := by
  refine ⟨?_, ?_, ?_, ?_⟩
  · exact (classify_total (some "home_new.xlsx")).1 (by decide)
  · exact (classify_total (some "Locations_PRD_v2.xlsx")).2.1 (by decide)
  · exact (classify_total (some "sellers_export.xls")).2.2.1 (by decide)
  · exact (classify_total (some "report.xlsx")).2.2.2.1 (by decide) (by decide) (by decide)

/-- C6 counterexample: for the unmapped variant the portal file name is the
fallback output.json, not the Home name googlesheet.json. -/
theorem vtex_output_name_unknown_cex :
    vtexOutputFileName "unknown" = "output.json"
    ∧ vtexOutputFileName "unknown" ≠ vtexOutputFileName "home"
    ∧ vtexOutputFileName "home" = "googlesheet.json" := by
  refine ⟨by decide, by decide, by decide⟩

/-- C6 (amended). The portal output file name is a fixed function of the
variant: home, locations and sellers map to their canonical names, and every
other variant falls back to output.json (while the object-storage archive
prefix of an unmapped variant does default to the Home prefix googleSheet). -/
theorem vtex_output_name_mapping (t : String) :
    vtexOutputFileName "home" = "googlesheet.json"
    ∧ vtexOutputFileName "locations" = "locations.json"
    ∧ vtexOutputFileName "sellers" = "sellers.json"
    ∧ (t ≠ "home" → t ≠ "locations" → t ≠ "sellers" →
        vtexOutputFileName t = "output.json")
    ∧ gcpArchivePrefix "unknown" = "googleSheet" := by
  refine ⟨by decide, by decide, by decide, ?_, by decide⟩
  intro h1 h2 h3
  unfold vtexOutputFileName OUTPUT_FILE_NAMES
  simp only [h1, h2, h3, if_false]
  rfl

/-- Witness for C6 (amended) at the unmapped variant string. -/
theorem vtex_output_name_mapping_witness :
    vtexOutputFileName "unknown" = "output.json" :=
  (vtex_output_name_mapping "unknown").2.2.2.1
    (by decide) (by decide) (by decide)

/-! ## Character and parsing lemmas -/

/-- A string built from a nonempty character list is not the empty string. -/
theorem stringMk_ne_empty (l : List Char) (h : l ≠ []) : String.mk l ≠ "" := by
  intro heq
  apply h
  have hd : (String.mk l).data = ("" : String).data := by rw [heq]
  simpa using hd

/-- dropWhile is the identity when no element satisfies the predicate. -/
theorem dropWhile_all_false {α : Type} (p : α → Bool) (l : List α)
    (h : ∀ c ∈ l, p c = false) : l.dropWhile p = l := by
  cases l with
  | nil => rfl
  | cons c t =>
    rw [List.dropWhile_cons]
    simp [h c (List.mem_cons_self _ _)]

/-- takeWhile keeps everything when every element satisfies the predicate. -/
theorem takeWhile_all_true {α : Type} (p : α → Bool) (l : List α)
    (h : ∀ c ∈ l, p c = true) : l.takeWhile p = l := by
  induction l with
  | nil => rfl
  | cons c t ih =>
    rw [List.takeWhile_cons]
    simp only [h c (List.mem_cons_self _ _), if_true]
    rw [ih (fun x hx => h x (List.mem_cons_of_mem _ hx))]

/-- dropWhile drops everything when every element satisfies the predicate. -/
theorem dropWhile_all_true {α : Type} (p : α → Bool) (l : List α)
    (h : ∀ c ∈ l, p c = true) : l.dropWhile p = [] := by
  induction l with
  | nil => rfl
  | cons c t ih =>
    rw [List.dropWhile_cons]
    simp only [h c (List.mem_cons_self _ _), if_true]
    exact ih (fun x hx => h x (List.mem_cons_of_mem _ hx))

/-- Two characters with different digit status differ. -/
theorem ne_of_isDigit (c x : Char) (hc : c.isDigit = true)
    (hx : x.isDigit = false) : c ≠ x := by
  intro heq
  rw [heq, hx] at hc
  exact absurd hc (by decide)

/-- A digit character is not whitespace. -/
theorem isDigit_not_ws (c : Char) (h : c.isDigit = true) :
    c.isWhitespace = false := by
  by_contra hws
  have hws2 : c.isWhitespace = true := by
    revert hws
    cases c.isWhitespace <;> simp
  unfold Char.isWhitespace at hws2
  simp only [Bool.or_eq_true, decide_eq_true_eq] at hws2
  rcases hws2 with ((h1 | h1) | h1) | h1 <;>
    · rw [h1] at h
      exact absurd h (by decide)

/-- strTrim is the identity on whitespace-free strings. -/
theorem strTrim_no_ws (l : List Char) (h : ∀ c ∈ l, c.isWhitespace = false) :
    strTrim (String.mk l) = String.mk l := by
  unfold strTrim
  have h1 : (String.mk l).data = l := rfl
  rw [h1, dropWhile_all_false _ _ h]
  rw [dropWhile_all_false _ _ (fun c hc => h c (List.mem_reverse.mp hc))]
  rw [List.reverse_reverse]

/-- Removing the first occurrence of a character appended after a list that
does not contain it gives the list back. -/
theorem removeFirst_append (l : List Char) (target : Char)
    (h : ∀ c ∈ l, c ≠ target) : removeFirstOccur (l ++ [target]) target = l := by
  induction l with
  | nil => simp [removeFirstOccur]
  | cons c t ih =>
    have hstep : removeFirstOccur ((c :: t) ++ [target]) target =
        if c = target then t ++ [target]
        else c :: removeFirstOccur (t ++ [target]) target := rfl
    rw [hstep, if_neg (h c (List.mem_cons_self _ _))]
    rw [ih (fun x hx => h x (List.mem_cons_of_mem _ hx))]

/-- splitSign does nothing on a list starting with a digit. -/
theorem splitSign_digit (c : Char) (t : List Char) (h : c.isDigit = true) :
    splitSign (c :: t) = (false, c :: t) := by
  have hstep : splitSign (c :: t) =
      if c = '-' then (true, t)
      else if c = '+' then (false, t) else (false, c :: t) := rfl
  rw [hstep, if_neg (ne_of_isDigit c '-' h (by decide)),
    if_neg (ne_of_isDigit c '+' h (by decide))]

/-- The rational value of a fractionless digit string is its natural value. -/
theorem ratOfDigits_int (ip : List Char) :
    ratOfDigits false ip [] = (digitsToNat ip : ℚ) := by
  unfold ratOfDigits digitsToNat
  simp

/-- parseFloat on a nonempty all-digit string yields its decimal value. -/
theorem parseFloat_digits (ds : List Char) (hne : ds ≠ [])
    (hdig : ∀ c ∈ ds, c.isDigit = true) :
    parseFloatJS (String.mk ds) = some (digitsToNat ds : ℚ) := by
  unfold parseFloatJS
  have h1 : (String.mk ds).data = ds := rfl
  rw [h1]
  cases ds with
  | nil => exact absurd rfl hne
  | cons c t =>
    rw [splitSign_digit c t (hdig c (List.mem_cons_self _ _))]
    simp only
    rw [takeWhile_all_true _ _ hdig, dropWhile_all_true _ _ hdig]
    simp only [fracPart, List.isEmpty_cons, List.isEmpty_nil, Bool.and_true,
      Bool.false_eq_true, Bool.and_false, if_false]
    rw [ratOfDigits_int]

/-! ## Sellers lemmas -/

/-- Delivery coercion of a plain percentage string: digits followed by a
percent sign parse to the decimal value of the digits. -/
theorem coerce_delivery_pct (ds : List Char) (hne : ds ≠ [])
    (hdig : ∀ c ∈ ds, c.isDigit = true) :
    coerceSellerField "delivery" (.tstr (String.mk (ds ++ ['%']))) =
      JVal.vnum (digitsToNat ds : ℚ) := by
  have hnemp : isEmptyTextCell (.tstr (String.mk (ds ++ ['%']))) = false := by
    have hne2 : String.mk (ds ++ ['%']) ≠ "" := stringMk_ne_empty _ (by simp)
    simpa [isEmptyTextCell] using hne2
  have hnws : ∀ c ∈ ds ++ ['%'], c.isWhitespace = false := by
    intro c hc
    rcases List.mem_append.mp hc with hm | hm
    · exact isDigit_not_ws c (hdig c hm)
    · simp only [List.mem_singleton] at hm
      rw [hm]
      decide
  have hnwsds : ∀ c ∈ ds, c.isWhitespace = false := fun c hc =>
    hnws c (List.mem_append.mpr (Or.inl hc))
  have hjs : jsStringOfText (.tstr (String.mk (ds ++ ['%']))) =
      String.mk (ds ++ ['%']) := rfl
  have hrm : replaceFirst (String.mk (ds ++ ['%'])) '%' = String.mk ds := by
    unfold replaceFirst
    have hd : (String.mk (ds ++ ['%'])).data = ds ++ ['%'] := rfl
    rw [hd, removeFirst_append ds '%'
      (fun c hc => ne_of_isDigit c '%' (hdig c hc) (by decide))]
  unfold coerceSellerField
  rw [hnemp]
  simp only [Bool.false_eq_true, if_false]
  rw [if_neg (by decide), if_pos (by decide)]
  rw [hjs, strTrim_no_ws _ hnws, hrm, strTrim_no_ws _ hnwsds]
  rw [parseFloat_digits ds hne hdig]

/-- The isNew coercion always lands on exactly 0 or 1. -/
theorem coerce_isNew_01 (v : TextCell) :
    coerceSellerField "isNew" v = JVal.vnum 0
    ∨ coerceSellerField "isNew" v = JVal.vnum 1 := by
  unfold coerceSellerField
  by_cases he : isEmptyTextCell v
  · rw [if_pos he, if_pos (by decide)]
    exact Or.inl rfl
  · rw [if_neg he, if_neg (by decide), if_neg (by decide), if_pos (by decide)]
    cases hp : parseIntJS (strTrim (jsStringOfText v)) with
    | none => exact Or.inl rfl
    | some n =>
      dsimp only
      by_cases hz : n = 0
      · rw [if_pos hz]
        exact Or.inl rfl
      · rw [if_neg hz]
        exact Or.inr rfl

/-- The sellerId coercion always yields a string value. -/
theorem coerce_sellerId_str (v : TextCell) :
    ∃ s, coerceSellerField "sellerId" v = JVal.vstr s := by
  unfold coerceSellerField
  by_cases he : isEmptyTextCell v
  · rw [if_pos he, if_neg (by decide)]
    exact ⟨"", rfl⟩
  · rw [if_neg he, if_neg (by decide), if_neg (by decide), if_neg (by decide)]
    exact ⟨_, rfl⟩

/-- Every value stored in a seller object is the coercion of some cell at its
own key. -/
theorem mkSellerObj_values (fields : List (Nat × String)) (row : List TextCell) :
    ∀ p ∈ mkSellerObj fields row, ∃ cell, p.2 = coerceSellerField p.1 cell := by
  suffices hgen : ∀ (obj : List (String × JVal)),
      (∀ p ∈ obj, ∃ cell, p.2 = coerceSellerField p.1 cell) →
      ∀ p ∈ fields.foldl
        (fun o q => setField o q.2 (coerceSellerField q.2 (row.getD q.1 .tnull))) obj,
        ∃ cell, p.2 = coerceSellerField p.1 cell by
    exact hgen [] (by intro p hp; simp at hp)
  induction fields with
  | nil =>
    intro obj hobj p hp
    exact hobj p hp
  | cons q rest ih =>
    intro obj hobj p hp
    simp only [List.foldl_cons] at hp
    refine ih _ ?_ p hp
    intro r hr
    unfold setField at hr
    by_cases hany : obj.any (fun x => x.1 == q.2)
    · rw [if_pos hany] at hr
      rcases List.mem_map.mp hr with ⟨x, hx, hxr⟩
      by_cases hk : x.1 == q.2
      · rw [if_pos hk] at hxr
        rw [← hxr]
        exact ⟨row.getD q.1 .tnull, rfl⟩
      · rw [if_neg hk] at hxr
        rw [← hxr]
        exact hobj x hx
    · rw [if_neg hany] at hr
      rcases List.mem_append.mp hr with hm | hm
      · exact hobj r hm
      · simp only [List.mem_singleton] at hm
        rw [hm]
        exact ⟨row.getD q.1 .tnull, rfl⟩

/-- Every object retained by the sellers transformation carries a non-empty
sellerId string. -/
theorem sellers_kept_have_id (headerRow : List TextCell)
    (dataRows : List (List TextCell)) :
    ∀ obj ∈ processSellersRows headerRow dataRows,
      ∃ s, lookupField obj "sellerId" = some (JVal.vstr s) ∧ s ≠ "" := by
  intro obj hobj
  unfold processSellersRows at hobj
  have hmem := List.mem_filter.mp hobj
  rcases List.mem_map.mp hmem.1 with ⟨row, _, hrow⟩
  have hkeep : keepSeller obj = true := hmem.2
  unfold keepSeller at hkeep
  cases hlook : lookupField obj "sellerId" with
  | none => rw [hlook] at hkeep; exact absurd hkeep (by decide)
  | some v =>
    rw [hlook] at hkeep
    have hpair : ∃ pr, pr ∈ obj ∧ pr.1 = "sellerId" ∧ pr.2 = v := by
      unfold lookupField at hlook
      cases hfind : obj.find? (fun p => p.1 == "sellerId") with
      | none => rw [hfind] at hlook; exact absurd hlook (by simp)
      | some pr =>
        rw [hfind] at hlook
        refine ⟨pr, List.mem_of_find?_eq_some hfind, ?_, ?_⟩
        · have := List.find?_some hfind
          exact eq_of_beq this
        · simpa using hlook
    rcases hpair with ⟨pr, hprmem, hprkey, hprval⟩
    have hval : ∃ cell, pr.2 = coerceSellerField pr.1 cell := by
      rw [← hrow] at hprmem
      exact mkSellerObj_values _ row pr hprmem
    rcases hval with ⟨cell, hcell⟩
    rw [hprkey] at hcell
    rcases coerce_sellerId_str cell with ⟨s, hs⟩
    rw [hs] at hcell
    rw [hprval] at hcell
    rw [hcell] at hkeep
    refine ⟨s, by simp [hlook, hcell], ?_⟩
    intro hempty
    rw [hempty] at hkeep
    exact absurd hkeep (by decide)

/-- C7. Sellers transformation: a delivery percentage string parses to the
number with the percent sign stripped (95% yields 95, blank and unparsable
cells default to 0); isNew collapses to exactly 0 or 1 (1 yields 1, blank
yields 0); and every row retained in the output carries a non-empty sellerId,
i.e. rows whose sellerId coerces to the empty string are dropped. -/
theorem sellers_transformation (ds : List Char) (v : TextCell)
    (headerRow : List TextCell) (dataRows : List (List TextCell)) :
    coerceSellerField "delivery" (.tstr "95%") = JVal.vnum 95
    ∧ (ds ≠ [] → (∀ c ∈ ds, c.isDigit = true) →
        coerceSellerField "delivery" (.tstr (String.mk (ds ++ ['%']))) =
          JVal.vnum (digitsToNat ds : ℚ))
    ∧ coerceSellerField "delivery" (.tstr "") = JVal.vnum 0
    ∧ coerceSellerField "delivery" .tnull = JVal.vnum 0
    ∧ coerceSellerField "delivery" (.tstr "n/a") = JVal.vnum 0
    ∧ coerceSellerField "isNew" (.tstr "1") = JVal.vnum 1
    ∧ coerceSellerField "isNew" (.tstr "") = JVal.vnum 0
    ∧ (coerceSellerField "isNew" v = JVal.vnum 0
        ∨ coerceSellerField "isNew" v = JVal.vnum 1)
    ∧ (∀ obj ∈ processSellersRows headerRow dataRows,
        ∃ s, lookupField obj "sellerId" = some (JVal.vstr s) ∧ s ≠ "") := by
  refine ⟨?_, ?_, by decide, by decide, by decide, by decide, by decide,
    coerce_isNew_01 v, sellers_kept_have_id headerRow dataRows⟩
  · have h := coerce_delivery_pct ['9', '5'] (by simp) (by decide)
    have h2 : (digitsToNat ['9', '5'] : ℚ) = 95 := by
      norm_num [show digitsToNat ['9', '5'] = 95 from by decide]
    rw [h2] at h
    exact h
  · intro hne hdig
    exact coerce_delivery_pct ds hne hdig

/-- Witness for C7: the general percentage lemma applied at 80 percent, and
the retention property at a concrete two-row sheet with one blank seller. -/
theorem sellers_transformation_witness :
    coerceSellerField "delivery" (.tstr "80%") = JVal.vnum 80
    ∧ (∀ obj ∈ processSellersRows [TextCell.tstr "Seller"]
          [[TextCell.tstr "shopA"], [TextCell.tstr ""]],
        ∃ s, lookupField obj "sellerId" = some (JVal.vstr s) ∧ s ≠ "") := by
  constructor
  · have h := (sellers_transformation ['8', '0'] .tnull [] []).2.1
      (by simp) (by decide)
    have h2 : (digitsToNat ['8', '0'] : ℚ) = 80 := by
      norm_num [show digitsToNat ['8', '0'] = 80 from by decide]
    rw [h2] at h
    exact h
  · exact (sellers_transformation ['8', '0'] .tnull [TextCell.tstr "Seller"]
      [[TextCell.tstr "shopA"], [TextCell.tstr ""]]).2.2.2.2.2.2.2.2

/-- Stripping trailing empty strings leaves a prefix of the row; the row is
that prefix padded back with empty strings. -/
theorem dropTrailingEmpties_spec (l : List String) :
    dropTrailingEmpties l ++
      List.replicate (l.length - (dropTrailingEmpties l).length) "" = l := by
  unfold dropTrailingEmpties
  have hsplit := List.takeWhile_append_dropWhile (fun x => x == "") l.reverse
  have htake : List.takeWhile (fun x => x == "") l.reverse =
      List.replicate (List.takeWhile (fun x => x == "") l.reverse).length "" := by
    apply List.eq_replicate_iff.mpr
    refine ⟨rfl, ?_⟩
    intro b hb
    have hmem := List.mem_takeWhile_imp hb
    simpa using hmem
  have hlen : l.length =
      (List.takeWhile (fun x => x == "") l.reverse).length +
      (List.dropWhile (fun x => x == "") l.reverse).length := by
    conv_lhs => rw [← List.length_reverse, ← hsplit]
    rw [List.length_append]
  have hlen2 : l.length -
      ((List.dropWhile (fun x => x == "") l.reverse).reverse).length =
      (List.takeWhile (fun x => x == "") l.reverse).length := by
    rw [List.length_reverse]
    omega
  rw [hlen2]
  conv_rhs => rw [← List.reverse_reverse l]
  conv_rhs => rw [← hsplit]
  rw [List.reverse_append]
  congr 1
  conv_rhs => rw [htake]
  rw [List.reverse_replicate]

/-- C8. Locations transformation: booleans render as TRUE/FALSE strings and
empty cells as the empty string; trailing empty cells are stripped while
interior empties are preserved (each output row is a prefix of the rendered
row, padded back with empties it equals the rendered row); the trimmed header
row is emitted first; and data rows with no non-blank cell are dropped. -/
theorem locations_transformation (hr dr : List TextCell)
    (rest : List (List TextCell)) (l : List String) :
    cellToStringLoc (.tbool true) = "TRUE"
    ∧ cellToStringLoc (.tbool false) = "FALSE"
    ∧ cellToStringLoc (.tstr "") = ""
    ∧ cellToStringLoc .tnull = ""
    ∧ processLocationsRow 4
        [.tstr "A", .tstr "", .tstr "", .tstr ""] = ["A"]
    ∧ processLocationsRow 3 [.tstr "A", .tstr "", .tstr "B"] = ["A", "", "B"]
    ∧ dropTrailingEmpties l ++
        List.replicate (l.length - (dropTrailingEmpties l).length) "" = l
    ∧ (dropTrailingEmpties l).getLast? ≠ some ""
    ∧ (processLocationsSheet (hr :: dr :: rest)).head? =
        some (hr.map headerCellString)
    ∧ (processLocationsSheet (hr :: dr :: rest)).tail =
        ((dr :: rest).filter isValidRowText).map
          (processLocationsRow (hr.map headerCellString).length) := by
  refine ⟨rfl, rfl, rfl, rfl, by decide, by decide,
    dropTrailingEmpties_spec l, ?_, rfl, rfl⟩
  intro hlast
  unfold dropTrailingEmpties at hlast
  rw [List.getLast?_reverse] at hlast
  cases hdw : List.dropWhile (fun x => x == "") l.reverse with
  | nil => rw [hdw] at hlast; exact absurd hlast (by simp)
  | cons x t =>
    rw [hdw] at hlast
    have hx : (x == "") = false := by
      have := List.head?_dropWhile_not (fun x => x == "") l.reverse
      rw [hdw] at this
      simpa using this
    simp only [List.head?_cons, Option.some.injEq] at hlast
    rw [hlast] at hx
    simp at hx

/-! ## Home lemmas -/

/-- Truncation toward zero is the identity on integers. -/
theorem jsTruncRat_intCast (n : Int) : jsTruncRat (n : ℚ) = n := by
  unfold jsTruncRat
  by_cases h : ((n : ℚ) < 0)
  · rw [if_pos h, ← Int.cast_neg, Int.floor_intCast]
    simp
  · rw [if_neg h, Int.floor_intCast]

/-- A string accepted by the numeric-literal regexp parses successfully. -/
theorem numericRE_parses (s : String) (h : numericLiteralRE s = true) :
    ∃ n, parseFloatJS s = some n := by
  unfold numericLiteralRE at h
  have h1 : (!(s.data.takeWhile Char.isDigit).isEmpty) = true :=
    (Bool.and_eq_true_iff.mp h).1
  unfold parseFloatJS
  cases hsd : s.data with
  | nil =>
    rw [hsd] at h1
    exact absurd h1 (by decide)
  | cons c t =>
    have hcdig : c.isDigit = true := by
      by_contra hcd
      have hcf : c.isDigit = false := by
        revert hcd
        cases c.isDigit <;> simp
      rw [hsd, List.takeWhile_cons, if_neg (by simp [hcf])] at h1
      exact absurd h1 (by decide)
    rw [splitSign_digit c t hcdig]
    dsimp only
    rw [List.takeWhile_cons, if_pos hcdig]
    simp only [List.isEmpty_cons, Bool.false_and, Bool.false_eq_true, if_false]
    exact ⟨_, rfl⟩

/-- The numeric branch of processCellValue: a numeric-literal string under a
header that is not an inicio/fin header becomes the parsed number. -/
theorem processCell_numeric_string (dp : String → Option Int) (tz : Int)
    (hdr s : String)
    (hnotif : (headerContains hdr "inicio" || headerContains hdr "fin") = false)
    (hre : numericLiteralRE (strTrim s) = true) :
    ∃ n, parseFloatJS (strTrim s) = some n
      ∧ processCellValue dp tz (JVal.vstr s) hdr = JVal.vnum n := by
  obtain ⟨n, hn⟩ := numericRE_parses (strTrim s) hre
  refine ⟨n, hn, ?_⟩
  have hsne : (s == "") = false := by
    by_cases hs : s = ""
    · rw [hs] at hre
      exact absurd hre (by decide)
    · exact beq_eq_false_iff_ne.mpr hs
  unfold processCellValue
  rw [show isEmptyJVal (JVal.vstr s) = (s == "") from rfl, hsne]
  simp only [Bool.false_eq_true, if_false]
  rw [hnotif]
  simp only [Bool.false_eq_true, if_false]
  rw [if_pos hre, hn]

/-- C9. Home transformation: empty cells map to null; a numeric cell under an
inicio/fin header renders as a dd/mm/yyyy HH:MM:SS string from the 1899-12-30
spreadsheet serial with day-to-millisecond scaling (serial 1 renders the
epoch-adjacent date, serial 45000.75 a modern date with its time of day); a
numeric-literal string under any other header parses to its number (12.50
yields 12.5); and rows with no non-blank cell contribute nothing to the
output. -/
theorem home_transformation (dp : String → Option Int) (tz : Int) (hdr : String)
    (q : ℚ) (s sheetName nowStr : String) (headers : List String)
    (r : List JVal) (rows : List (List JVal)) :
    processCellValue dp tz JVal.vnull hdr = JVal.vnull
    ∧ processCellValue dp tz (JVal.vstr "") hdr = JVal.vnull
    ∧ ((headerContains hdr "inicio" || headerContains hdr "fin") = true →
        processCellValue dp tz (JVal.vnum q) hdr =
          JVal.vstr (formatExcelSerial tz q))
    ∧ formatExcelSerial 0 1 = "31/12/1899 00:00:00"
    ∧ formatExcelSerial 0 (180003 / 4) = "15/03/2023 18:00:00"
    ∧ processCellValue dp 0 (JVal.vnum 1) "Fecha Inicio" =
        JVal.vstr "31/12/1899 00:00:00"
    ∧ ((headerContains hdr "inicio" || headerContains hdr "fin") = false →
        numericLiteralRE (strTrim s) = true →
        ∃ n, parseFloatJS (strTrim s) = some n
          ∧ processCellValue dp tz (JVal.vstr s) hdr = JVal.vnum n)
    ∧ processCellValue dp tz (JVal.vstr "12.50") "Precio" = JVal.vnum (25 / 2)
    ∧ (isValidRowHome r = false →
        processRawData dp tz sheetName nowStr headers (r :: rows) =
          processRawData dp tz sheetName nowStr headers rows)
    ∧ (processRawData dp tz sheetName nowStr headers rows).length =
        (rows.filter isValidRowHome).length := by
  have hserial1 : formatExcelSerial 0 1 = "31/12/1899 00:00:00" := by
    have h1 : ratMsOfSerial 1 = ((-2209075200000 : Int) : ℚ) := by
      unfold ratMsOfSerial excelEpochMs
      norm_num
    unfold formatExcelSerial
    rw [h1, jsTruncRat_intCast]
    decide
  refine ⟨rfl, rfl, ?_, hserial1, ?_, ?_, processCell_numeric_string dp tz hdr s,
    ?_, ?_, ?_⟩
  · intro h
    unfold processCellValue
    rw [show isEmptyJVal (JVal.vnum q) = false from rfl]
    simp only [Bool.false_eq_true, if_false]
    rw [if_pos h]
  · have h1 : ratMsOfSerial (180003 / 4) = ((1678903200000 : Int) : ℚ) := by
      unfold ratMsOfSerial excelEpochMs
      norm_num
    unfold formatExcelSerial
    rw [h1, jsTruncRat_intCast]
    decide
  · unfold processCellValue
    rw [show isEmptyJVal (JVal.vnum 1) = false from rfl]
    simp only [Bool.false_eq_true, if_false]
    rw [if_pos (show (headerContains "Fecha Inicio" "inicio"
      || headerContains "Fecha Inicio" "fin") = true from by decide)]
    rw [hserial1]
  · obtain ⟨n, hn, hcv⟩ := processCell_numeric_string dp tz "Precio" "12.50"
      (by decide) (by decide)
    have hp : parseFloatJS (strTrim "12.50") =
        some (ratOfDigits false ['1', '2'] ['5', '0']) := rfl
    rw [hp] at hn
    have hneq : n = ratOfDigits false ['1', '2'] ['5', '0'] :=
      (Option.some.injEq _ _).mp hn.symm
    have hval : ratOfDigits false ['1', '2'] ['5', '0'] = 25 / 2 := by
      unfold ratOfDigits
      rw [show digitsToNat ['1', '2'] = 12 from by decide,
        show digitsToNat ['5', '0'] = 50 from by decide,
        show (['5', '0'] : List Char).length = 2 from rfl]
      norm_num
    rw [hcv, hneq, hval]
  · intro hinv
    unfold processRawData
    simp only [List.isEmpty_cons, Bool.false_eq_true, if_false,
      List.filter_cons, hinv]
    cases rows with
    | nil => simp
    | cons r2 t =>
      simp only [List.isEmpty_cons, Bool.false_eq_true, if_false]
  · unfold processRawData
    cases rows with
    | nil => simp
    | cons r2 t =>
      simp only [List.isEmpty_cons, Bool.false_eq_true, if_false,
        List.length_map, List.enum_length]

/-- Witness for C9: the inicio/fin serial branch and the numeric-string
branch applied at concrete headers and values. -/
theorem home_transformation_witness :
    processCellValue (fun _ => none) 0 (JVal.vnum (180003 / 4)) "Hora Fin" =
      JVal.vstr "15/03/2023 18:00:00"
    ∧ (∃ n, parseFloatJS (strTrim "7.25") = some n
        ∧ processCellValue (fun _ => none) 0 (JVal.vstr "7.25") "Cantidad" =
          JVal.vnum n)
    ∧ processRawData (fun _ => none) 0 "PROD" "now" ["Precio"]
        [[JVal.vstr "", JVal.vnull]] =
      processRawData (fun _ => none) 0 "PROD" "now" ["Precio"] [] := by
  obtain ⟨_, _, h3, _, h5, _, h7, _, h9, _⟩ :=
    home_transformation (fun _ => none) 0 "Hora Fin" (180003 / 4) "7.25"
      "PROD" "now" ["Precio"] [JVal.vstr "", JVal.vnull] []
  refine ⟨?_, ?_, ?_⟩
  · rw [h3 (by decide), h5]
  · obtain ⟨_, _, _, _, _, _, h7b, _⟩ :=
      home_transformation (fun _ => none) 0 "Cantidad" 0 "7.25"
        "PROD" "now" ["Precio"] [] []
    exact h7b (by decide) (by decide)
  · exact h9 (by decide)

end ExcelVtex
